import Mathlib

/-!
Verification development for the rtl_433 RabbitMQ pulse-analysis scripts.

The repository contains two Python scripts with the algorithmic core:
`pulse_data_analyzer.py` (class `PulseDataAnalyzer`: tolerance histogram,
modulation guessing, flex-decoder parameter suggestion) and
`rabbitmq_to_triq.py` (a duplicated tolerance histogram plus the RfRaw B1
waveform encoder).  This file is a shallow embedding of that core:
Python floats are modelled as exact rationals (ℚ), Python `sorted` /
`list.sort` (stable, ascending) as `List.insertionSort` (also stable),
in-place list mutation as explicit state passing, and fallible encoding
as `Except`.
-/

namespace RTL433

/-- A histogram bin, embedding the Python 4-tuple
`(bin_mean, bin_count, bin_min, bin_max)` used by both scripts.
`bmean` is the running weighted average, `bcount` the number of merged
values, `bmin`/`bmax` the extreme merged values. -/
structure TimingBin where
  bmean : ℚ
  bcount : ℕ
  bmin : ℚ
  bmax : ℚ
deriving Repr, DecidableEq

/-- Python's built-in `abs` on a rational. -/
def pyAbs (q : ℚ) : ℚ := if q < 0 then -q else q

/-- Python's two-argument `min`. -/
def pyMin (a b : ℚ) : ℚ := if a ≤ b then a else b

/-- Python's two-argument `max`. -/
def pyMax (a b : ℚ) : ℚ := if b ≤ a then a else b

/-- The tolerance membership test from both scripts:
`abs(value - bin_mean) <= bin_mean * tolerance`. -/
def binMatches (tol v : ℚ) (b : TimingBin) : Prop :=
  pyAbs (v - b.bmean) ≤ b.bmean * tol

instance (tol v : ℚ) (b : TimingBin) : Decidable (binMatches tol v b) := by
  unfold binMatches; infer_instance

/-- The bin update performed on a tolerance match (both scripts):
`new_mean = (bin_mean*bin_count + value)/new_count`, `new_count = bin_count+1`,
`new_min = min(bin_min, value)`, `new_max = max(bin_max, value)`. -/
def mergeBin (b : TimingBin) (v : ℚ) : TimingBin :=
  { bmean := (b.bmean * b.bcount + v) / (b.bcount + 1)
    bcount := b.bcount + 1
    bmin := pyMin b.bmin v
    bmax := pyMax b.bmax v }

/-- A fresh single-value bin, Python `(value, 1, value, value)`. -/
def newBin (v : ℚ) : TimingBin := ⟨v, 1, v, v⟩

/-- Ascending stable sort of rationals, embedding Python `sorted(values)`. -/
def sortQ (values : List ℚ) : List ℚ := List.insertionSort (· ≤ ·) values

/-- Ordering of bins by their mean, the Python sort key `lambda x: x[0]`. -/
def byMean (a b : TimingBin) : Prop := a.bmean ≤ b.bmean

instance : DecidableRel byMean := fun a b => by unfold byMean; infer_instance

instance : IsTotal TimingBin byMean := ⟨fun a b => le_total a.bmean b.bmean⟩

instance : IsTrans TimingBin byMean := ⟨fun _ _ _ h h' => le_trans h h'⟩

/-- Ordering of bins by their count, the Python sort key `lambda x: x[1]`. -/
def byCount (a b : TimingBin) : Prop := a.bcount ≤ b.bcount

instance : DecidableRel byCount := fun a b => by unfold byCount; infer_instance

instance : IsTotal TimingBin byCount := ⟨fun a b => Nat.le_total a.bcount b.bcount⟩

instance : IsTrans TimingBin byCount := ⟨fun _ _ _ h h' => Nat.le_trans h h'⟩

/-- Stable sort of a bin list ascending by mean, embedding
`bins.sort(key=lambda x: x[0])` (as a returned value rather than an
in-place effect). -/
def sortByMean (bins : List TimingBin) : List TimingBin :=
  List.insertionSort byMean bins

/-- Stable sort of a bin list ascending by count, embedding
`pulse_bins.sort(key=lambda x: x[1])`. -/
def sortByCount (bins : List TimingBin) : List TimingBin :=
  List.insertionSort byCount bins

/-- Total number of input values accounted for by a bin list. -/
def sumCounts (bins : List TimingBin) : ℕ := (bins.map TimingBin.bcount).sum

/-- The bin invariant of the spec data model: `min ≤ mean ≤ max`. -/
def binInv (b : TimingBin) : Prop := b.bmin ≤ b.bmean ∧ b.bmean ≤ b.bmax

namespace PulseDataAnalyzer

/-- The inner loop of `_create_histogram` (pulse_data_analyzer.py lines
105-121): scan `bins` in list (creation) order with `enumerate`, and at the
first index `i` whose bin passes the tolerance test stop and report it. -/
def findBinIdx (tol v : ℚ) : List TimingBin → Option ℕ
  | [] => none
  | b :: rest =>
    if binMatches tol v b then some 0
    else (findBinIdx tol v rest).map (· + 1)

/-- One iteration of the outer loop of `_create_histogram`: if the scan found
a bin at index `i`, replace `bins[i]` with the merged bin (`bins[i] = (...)`
followed by `break`); otherwise append a fresh bin (`bins.append`). -/
def addValue (tol : ℚ) (bins : List TimingBin) (v : ℚ) : List TimingBin :=
  match findBinIdx tol v bins with
  | some i => bins.set i (mergeBin (bins.getD i (newBin v)) v)
  | none => bins ++ [newBin v]

/-- `PulseDataAnalyzer._create_histogram(values)` with tolerance parameter
made explicit (the class fixes `self.TOLERANCE = 0.2`): sort the values
ascending, then fold every value into the bin list; empty input returns `[]`.
The result is in bin-creation order (no final sort). -/
def createHistogram (tol : ℚ) (values : List ℚ) : List TimingBin :=
  (sortQ values).foldl (addValue tol) []

/-- The tolerance constant `self.TOLERANCE = 0.2` of `PulseDataAnalyzer`. -/
def TOLERANCE : ℚ := 1/5

/-- The verdicts printed by `_guess_modulation` (one per `print` branch). -/
inductive ModulationGuess where
  | SinglePulse
  | Unmodulated
  | PpmFixedPulse
  | PwmFixedGap
  | PwmFixedPeriod
  | PwmWithSync
  | Unknown
deriving Repr, DecidableEq

/-- The `modulation` string argument passed to `_suggest_flex_decoder`
(either the literal `"OOK_PPM"` or `"OOK_PWM"`). -/
inductive Modulation where
  | OOK_PPM
  | OOK_PWM
deriving Repr, DecidableEq

/-- `_guess_modulation(pulse_widths, gap_widths)` (lines 125-159), reduced to
the verdict it selects: build the two histograms with `self.TOLERANCE`, then
walk the `if`/`elif` chain on `num_pulses = len(pulse_widths)`,
`pulse_count = len(pulse_bins)` and `gap_count = len(gap_bins)`. -/
def guessModulation (pulse_widths gap_widths : List ℚ) : ModulationGuess :=
  let pulse_bins := createHistogram TOLERANCE pulse_widths
  let gap_bins := createHistogram TOLERANCE gap_widths
  let pulse_count := pulse_bins.length
  let gap_count := gap_bins.length
  let num_pulses := pulse_widths.length
  if num_pulses = 1 then .SinglePulse
  else if pulse_count = 1 ∧ gap_count = 1 then .Unmodulated
  else if pulse_count = 1 ∧ gap_count > 1 then .PpmFixedPulse
  else if pulse_count = 2 ∧ gap_count = 1 then .PwmFixedGap
  else if pulse_count = 2 ∧ gap_count = 2 then .PwmFixedPeriod
  else if pulse_count = 3 then .PwmWithSync
  else .Unknown

/-- The decoder parameters printed by `_suggest_flex_decoder`: the `OOK_PPM`
branch prints `s`, `l`, `g`, `r`; the `OOK_PWM` branch prints `s`, `l`, `r`,
`t` and (with sync) `y` (`sync_width` is `0` in the no-sync branch). -/
inductive DecoderParams where
  | ppm (short_width long_width gap_limit reset_limit : ℚ)
  | pwm (short_width long_width reset_limit tolerance sync_width : ℚ)
deriving Repr, DecidableEq

/-- Line 195 of pulse_data_analyzer.py, shared by both `OOK_PWM` branches:
`reset_limit = gap_bins[-1][2] * self.to_us + 100 if gap_bins else 10000`.
Note `[-1][2]` reads the `bin_min` field of the last (largest-mean) bin. -/
def resetLimitPwm (gap_bins : List TimingBin) (to_us : ℚ) : ℚ :=
  match gap_bins with
  | [] => 10000
  | g0 :: grest => ((g0 :: grest).getLast (by simp)).bmin * to_us + 100

/-- `_suggest_flex_decoder(modulation, pulse_bins, gap_bins, has_sync)`
(lines 161-204).  The Python sorts mutate the argument lists in place, so the
embedding passes that state explicitly: the result is the suggested
parameters (`none` when the function returns early on empty `pulse_bins`)
together with the contents of `pulse_bins` and `gap_bins` after the call.
`gap_bins[-1][2]` is the `bin_min` tuple field (the tuple layout is
`(mean, count, min, max)`), which is what lines 174 and 195 read. -/
def suggestFlexDecoder (modulation : Modulation) (pulse_bins gap_bins : List TimingBin)
    (has_sync : Bool) (to_us : ℚ) :
    Option DecoderParams × List TimingBin × List TimingBin :=
  if pulse_bins = [] then (none, pulse_bins, gap_bins)
  else
    let pb := sortByMean pulse_bins
    let gb := sortByMean gap_bins
    match modulation with
    | .OOK_PPM =>
      match gb with
      | [] => (none, pb, gb)
      | g0 :: grest =>
        let short_width := g0.bmean * to_us
        let long_width :=
          match grest with
          | [] => short_width * 2
          | g1 :: _ => g1.bmean * to_us
        let gap_limit := long_width + 100
        let reset_limit := ((g0 :: grest).getLast (by simp)).bmin * to_us + 100
        (some (.ppm short_width long_width gap_limit reset_limit), pb, gb)
    | .OOK_PWM =>
      if has_sync ∧ 3 ≤ pb.length then
        match sortByCount pb with
        | [] => (none, sortByCount pb, gb)
        | [b0] => (none, sortByCount pb, gb)
        | [b0, b1] => (none, sortByCount pb, gb)
        | b0 :: b1 :: b2 :: _ =>
          let sync_width := b0.bmean * to_us
          let p1 := b1.bmean * to_us
          let p2 := b2.bmean * to_us
          let short_width := pyMin p1 p2
          let long_width := pyMax p1 p2
          let reset_limit := resetLimitPwm gb to_us
          let tolerance := pyAbs (long_width - short_width) * (2/5)
          (some (.pwm short_width long_width reset_limit tolerance sync_width),
            sortByCount pb, gb)
      else
        match pb with
        | [] => (none, pb, gb)
        | b0 :: brest =>
          let short_width := b0.bmean * to_us
          let long_width :=
            match brest with
            | [] => short_width * 2
            | b1 :: _ => b1.bmean * to_us
          let reset_limit := resetLimitPwm gb to_us
          let tolerance := pyAbs (long_width - short_width) * (2/5)
          (some (.pwm short_width long_width reset_limit tolerance 0), pb, gb)

end PulseDataAnalyzer

namespace RabbitmqToTriq

/-- The inner loop of `create_histogram` in rabbitmq_to_triq.py (lines
18-31), textually duplicated from `_create_histogram`: first-match scan and
in-place merge, else append.  Embedded directly as a first-match recursion
over the bin list. -/
def insertValue (tol v : ℚ) : List TimingBin → List TimingBin
  | [] => [newBin v]
  | b :: rest =>
    if binMatches tol v b then mergeBin b v :: rest
    else b :: insertValue tol v rest

/-- `create_histogram(values, tolerance=0.2)` from rabbitmq_to_triq.py:
sort values ascending, fold them into bins, then — unlike the analyzer copy —
sort the resulting bins ascending by mean (`bins.sort(key=lambda x: x[0])`)
before returning. -/
def create_histogram (values : List ℚ) (tol : ℚ) : List TimingBin :=
  sortByMean ((sortQ values).foldl (fun bins v => insertValue tol v bins) [])

/-- The scan of `find_timing_bin_index` (lines 36-41) as an optional index:
first bin (in list order) passing the tolerance test. -/
def findIdxOpt (tol value : ℚ) : List TimingBin → Option ℕ
  | [] => none
  | b :: rest =>
    if binMatches tol value b then some 0
    else (findIdxOpt tol value rest).map (· + 1)

/-- `find_timing_bin_index(value, timing_bins, tolerance=0.2)`: the index of
the first matching bin, or `-1` when no bin matches. -/
def find_timing_bin_index (value : ℚ) (timing_bins : List TimingBin) (tol : ℚ) : ℤ :=
  match findIdxOpt tol value timing_bins with
  | some i => i
  | none => -1

/-- Python `int(...)` applied to a rational: truncation toward zero
(`Int.div` is T-division). -/
def pyInt (q : ℚ) : ℤ := q.num.tdiv q.den

/-- Python's two-argument `min` on integers, used by
`timing_us = min(timing_us, 65535)`. -/
def pyMinI (a b : ℤ) : ℤ := if a ≤ b then a else b

/-- The even-index elements of a list: `pulses[i]` for `i = 0, 2, 4, ...`,
matching the stride-2 loop of `generate_rfraw_from_rabbitmq` (lines 66-70)
and the analyzer's `pulses[::2]`. -/
def evenItems : List ℚ → List ℚ
  | [] => []
  | [x] => [x]
  | x :: _ :: rest => x :: evenItems rest

/-- The odd-index elements of a list: `pulses[i+1]` for `i = 0, 2, 4, ...`,
matching `pulses[1::2]`. -/
def oddItems (l : List ℚ) : List ℚ := evenItems (l.drop 1)

/-- The two ways `generate_rfraw_from_rabbitmq` returns `None` before
producing a frame: fewer than two durations, or more than 8 timing bins. -/
inductive EncodeError where
  | insufficientData
  | tooManySymbols
deriving Repr, DecidableEq

/-- One timing-table entry of the frame: `int(timing * to_us)` clamped to
`65535` (`USHRT_MAX`), rendered by `f"{timing_us:04X}"` — four uppercase hex
digits, i.e. two big-endian bytes. -/
def timingEntryBytes (timing : ℚ) (to_us : ℚ) : List ℕ :=
  let timing_us := pyMinI (pyInt (timing * to_us)) 65535
  [timing_us.toNat / 256, timing_us.toNat % 256]

/-- The pulse/gap data byte `0x80 | (pulse_idx << 4) | gap_idx` for pair `i`
of the encoding loop (lines 97-106), or `none` when the guard
`pulse_idx >= 0 and gap_idx >= 0` fails and the loop appends nothing.
The gap defaults to `0` when the pulse train has no gap at position `i`
(`gap_widths[i] if i < len(gap_widths) else 0`). -/
def pairByte (timing_bins : List TimingBin) (pulse_widths gap_widths : List ℚ)
    (i : ℕ) : Option ℕ :=
  let pulse := pulse_widths.getD i 0
  let gap := gap_widths.getD i 0
  let pulse_idx := find_timing_bin_index pulse timing_bins (1/5)
  let gap_idx := find_timing_bin_index gap timing_bins (1/5)
  if 0 ≤ pulse_idx ∧ 0 ≤ gap_idx then
    some (0x80 ||| (pulse_idx.toNat <<< 4) ||| gap_idx.toNat)
  else none

/-- `generate_rfraw_from_rabbitmq` (lines 43-116) reduced to its returned
RfRaw frame, as the list of byte values whose two-hex-digit renderings are
concatenated into the returned string: header `AA B1`, the bin count, the
timing table, the encoded pulse/gap bytes, trailing `55`.  `None` returns
are the explicit `EncodeError`s. -/
def generate_rfraw_from_rabbitmq (pulses : List ℚ) (rate_Hz : ℚ) :
    Except EncodeError (List ℕ) :=
  if pulses.length < 2 then .error .insufficientData
  else
    let to_us := 1000000 / rate_Hz
    let pulse_widths := evenItems pulses
    let gap_widths := oddItems pulses
    let all_timings := pulse_widths ++ gap_widths
    let timing_bins := create_histogram all_timings (1/5)
    if 8 < timing_bins.length then .error .tooManySymbols
    else
      .ok ([0xAA, 0xB1, timing_bins.length]
        ++ timing_bins.flatMap (fun b => timingEntryBytes b.bmean to_us)
        ++ (List.range pulse_widths.length).filterMap
            (pairByte timing_bins pulse_widths gap_widths)
        ++ [0x55])

end RabbitmqToTriq

namespace Spec

/-- Modelled from the spec wording of the histogram step (spec.md §4.1 and
claim C1): for one sorted value, scan the existing bins in creation order and
merge the value into the first bin within tolerance of the bin mean,
otherwise append a new bin `(v, 1, v, v)`. -/
def insertSpec (tol v : ℚ) : List TimingBin → List TimingBin
  | [] => [newBin v]
  | b :: rest =>
    if binMatches tol v b then mergeBin b v :: rest
    else b :: insertSpec tol v rest

/-- Modelled from the spec wording (claim C1): sort the input ascending and
fold each value into the bin list with `insertSpec`; empty input gives `[]`. -/
def histogramSpec (tol : ℚ) (values : List ℚ) : List TimingBin :=
  (sortQ values).foldl (fun bins v => insertSpec tol v bins) []

/-- Modelled from the spec wording of the classification table (spec.md §4.2
and claim C3), as a function of `N = |pulse_widths|`, `P = |pulse_bins|` and
`G = |gap_bins|`, evaluated in order with the first match winning. -/
def classifyTable (N P G : ℕ) : PulseDataAnalyzer.ModulationGuess :=
  if N = 1 then .SinglePulse
  else if P = 1 ∧ G = 1 then .Unmodulated
  else if P = 1 ∧ G > 1 then .PpmFixedPulse
  else if P = 2 ∧ G = 1 then .PwmFixedGap
  else if P = 2 ∧ G = 2 then .PwmFixedPeriod
  else if P = 3 then .PwmWithSync
  else .Unknown

end Spec

section HistogramLemmas

open PulseDataAnalyzer RabbitmqToTriq

theorem pyAbs_eq_abs (q : ℚ) : pyAbs q = |q| := by
  unfold pyAbs
  rcases lt_or_ge q 0 with h | h
  · rw [if_pos h, abs_of_neg h]
  · rw [if_neg (not_lt.mpr h), abs_of_nonneg h]

theorem pyMin_eq_min (a b : ℚ) : pyMin a b = min a b := by
  unfold pyMin; rw [min_def]

theorem pyMax_eq_max (a b : ℚ) : pyMax a b = max a b := by
  unfold pyMax
  rcases le_total a b with h | h
  · rcases eq_or_lt_of_le h with rfl | h'
    · simp
    · rw [if_neg (not_le.mpr h'), max_eq_right h]
  · rw [if_pos h, max_eq_left h]

theorem binMatches_iff (tol v : ℚ) (b : TimingBin) :
    binMatches tol v b ↔ |v - b.bmean| ≤ b.bmean * tol := by
  unfold binMatches; rw [pyAbs_eq_abs]

theorem addValue_cons (tol v : ℚ) (b : TimingBin) (rest : List TimingBin) :
    addValue tol (b :: rest) v =
      if binMatches tol v b then mergeBin b v :: rest
      else b :: addValue tol rest v := by
  by_cases h : binMatches tol v b
  · simp [addValue, findBinIdx, h]
  · rw [if_neg h]
    cases hfind : findBinIdx tol v rest with
    | none => simp [addValue, findBinIdx, h, hfind]
    | some i => simp [addValue, findBinIdx, h, hfind]

theorem addValue_eq_insertSpec (tol : ℚ) (bins : List TimingBin) (v : ℚ) :
    addValue tol bins v = Spec.insertSpec tol v bins := by
  induction bins with
  | nil => simp [addValue, findBinIdx, Spec.insertSpec]
  | cons b rest ih =>
    rw [addValue_cons, Spec.insertSpec, ih]

theorem insertValue_eq_insertSpec (tol v : ℚ) (bins : List TimingBin) :
    insertValue tol v bins = Spec.insertSpec tol v bins := by
  induction bins with
  | nil => rfl
  | cons b rest ih =>
    unfold insertValue Spec.insertSpec
    rw [ih]

theorem createHistogram_eq_histogramSpec (tol : ℚ) (values : List ℚ) :
    createHistogram tol values = Spec.histogramSpec tol values := by
  unfold createHistogram Spec.histogramSpec
  exact List.foldl_ext _ _ _ (fun bins v _ => addValue_eq_insertSpec tol bins v)

theorem create_histogram_eq_sorted_spec (values : List ℚ) (tol : ℚ) :
    create_histogram values tol = sortByMean (Spec.histogramSpec tol values) := by
  unfold create_histogram Spec.histogramSpec
  congr 1
  exact List.foldl_ext _ _ _ (fun bins v _ => insertValue_eq_insertSpec tol v bins)

theorem insertSpec_sumCounts (tol v : ℚ) (bins : List TimingBin) :
    sumCounts (Spec.insertSpec tol v bins) = sumCounts bins + 1 := by
  induction bins with
  | nil => simp [Spec.insertSpec, sumCounts, newBin]
  | cons b rest ih =>
    by_cases h : binMatches tol v b
    · simp only [Spec.insertSpec, if_pos h, sumCounts, List.map_cons, List.sum_cons,
        mergeBin]
      omega
    · simp only [Spec.insertSpec, if_neg h, sumCounts, List.map_cons, List.sum_cons] at ih ⊢
      omega

theorem mergeBin_binInv (b : TimingBin) (v : ℚ) (h : binInv b) :
    binInv (mergeBin b v) := by
  obtain ⟨h1, h2⟩ := h
  have hc : (0:ℚ) < (b.bcount : ℚ) + 1 := by positivity
  have hc0 : (0:ℚ) ≤ (b.bcount : ℚ) := by positivity
  constructor
  · show pyMin b.bmin v ≤ (b.bmean * b.bcount + v) / (b.bcount + 1)
    rw [pyMin_eq_min, le_div_iff₀ hc]
    have ha : min b.bmin v ≤ b.bmean := le_trans (min_le_left _ _) h1
    have hb : min b.bmin v ≤ v := min_le_right _ _
    nlinarith [mul_le_mul_of_nonneg_right ha hc0]
  · show (b.bmean * b.bcount + v) / (b.bcount + 1) ≤ pyMax b.bmax v
    rw [pyMax_eq_max, div_le_iff₀ hc]
    have ha : b.bmean ≤ max b.bmax v := le_trans h2 (le_max_left _ _)
    have hb : v ≤ max b.bmax v := le_max_right _ _
    nlinarith [mul_le_mul_of_nonneg_right ha hc0]

theorem newBin_binInv (v : ℚ) : binInv (newBin v) := ⟨le_refl v, le_refl v⟩

theorem insertSpec_binInv (tol v : ℚ) (bins : List TimingBin)
    (h : ∀ b ∈ bins, binInv b) :
    ∀ b ∈ Spec.insertSpec tol v bins, binInv b := by
  induction bins with
  | nil =>
    intro b hb
    simp only [Spec.insertSpec, List.mem_singleton] at hb
    exact hb ▸ newBin_binInv v
  | cons c rest ih =>
    intro b hb
    by_cases hm : binMatches tol v c
    · rw [Spec.insertSpec, if_pos hm] at hb
      rcases List.mem_cons.mp hb with rfl | hb'
      · exact mergeBin_binInv c v (h c (List.mem_cons_self c rest))
      · exact h b (List.mem_cons_of_mem c hb')
    · rw [Spec.insertSpec, if_neg hm] at hb
      rcases List.mem_cons.mp hb with rfl | hb'
      · exact h b (List.mem_cons_self b rest)
      · exact ih (fun d hd => h d (List.mem_cons_of_mem c hd)) b hb'

theorem mergeBin_pos (b : TimingBin) (v : ℚ) (hb : 0 < b.bmin) (hv : 0 < v) :
    0 < (mergeBin b v).bmin := by
  show 0 < pyMin b.bmin v
  rw [pyMin_eq_min]
  exact lt_min hb hv

theorem insertSpec_pos (tol v : ℚ) (hv : 0 < v) (bins : List TimingBin)
    (h : ∀ b ∈ bins, 0 < b.bmin) :
    ∀ b ∈ Spec.insertSpec tol v bins, 0 < b.bmin := by
  induction bins with
  | nil =>
    intro b hb
    simp only [Spec.insertSpec, List.mem_singleton] at hb
    exact hb ▸ hv
  | cons c rest ih =>
    intro b hb
    by_cases hm : binMatches tol v c
    · rw [Spec.insertSpec, if_pos hm] at hb
      rcases List.mem_cons.mp hb with rfl | hb'
      · exact mergeBin_pos c v (h c (List.mem_cons_self c rest)) hv
      · exact h b (List.mem_cons_of_mem c hb')
    · rw [Spec.insertSpec, if_neg hm] at hb
      rcases List.mem_cons.mp hb with rfl | hb'
      · exact h b (List.mem_cons_self b rest)
      · exact ih (fun d hd => h d (List.mem_cons_of_mem c hd)) b hb'

theorem foldl_insertSpec_sumCounts (tol : ℚ) (l : List ℚ) :
    ∀ bins : List TimingBin,
      sumCounts (l.foldl (fun bins v => Spec.insertSpec tol v bins) bins)
        = sumCounts bins + l.length := by
  induction l with
  | nil => intro bins; simp
  | cons v rest ih =>
    intro bins
    rw [List.foldl_cons, ih, insertSpec_sumCounts]
    simp only [List.length_cons]
    omega

theorem foldl_insertSpec_binInv (tol : ℚ) (l : List ℚ) :
    ∀ bins : List TimingBin, (∀ b ∈ bins, binInv b) →
      ∀ b ∈ l.foldl (fun bins v => Spec.insertSpec tol v bins) bins, binInv b := by
  induction l with
  | nil => intro bins h; simpa using h
  | cons v rest ih =>
    intro bins h
    rw [List.foldl_cons]
    exact ih _ (insertSpec_binInv tol v bins h)

theorem foldl_insertSpec_pos (tol : ℚ) (l : List ℚ) :
    ∀ bins : List TimingBin, (∀ v ∈ l, 0 < v) → (∀ b ∈ bins, 0 < b.bmin) →
      ∀ b ∈ l.foldl (fun bins v => Spec.insertSpec tol v bins) bins, 0 < b.bmin := by
  induction l with
  | nil => intro bins _ h; simpa using h
  | cons v rest ih =>
    intro bins hl h
    rw [List.foldl_cons]
    exact ih _ (fun w hw => hl w (List.mem_cons_of_mem v hw))
      (insertSpec_pos tol v (hl v (List.mem_cons_self v rest)) bins h)

theorem histogramSpec_sumCounts (tol : ℚ) (values : List ℚ) :
    sumCounts (Spec.histogramSpec tol values) = values.length := by
  unfold Spec.histogramSpec
  rw [foldl_insertSpec_sumCounts]
  simp [sumCounts, sortQ, (List.perm_insertionSort (· ≤ ·) values).length_eq]

theorem histogramSpec_binInv (tol : ℚ) (values : List ℚ) :
    ∀ b ∈ Spec.histogramSpec tol values, binInv b := by
  unfold Spec.histogramSpec
  exact foldl_insertSpec_binInv tol _ [] (by simp)

theorem histogramSpec_pos (tol : ℚ) (values : List ℚ) (h : ∀ v ∈ values, 0 < v) :
    ∀ b ∈ Spec.histogramSpec tol values, 0 < b.bmin := by
  unfold Spec.histogramSpec
  refine foldl_insertSpec_pos tol _ [] ?_ (by simp)
  intro v hv
  exact h v ((List.perm_insertionSort (· ≤ ·) values).mem_iff.mp hv)

end HistogramLemmas

section EncoderLemmas

open RabbitmqToTriq

theorem findIdxOpt_eq_none_iff (tol v : ℚ) (bins : List TimingBin) :
    findIdxOpt tol v bins = none ↔ ∀ b ∈ bins, ¬ binMatches tol v b := by
  induction bins with
  | nil => simp [findIdxOpt]
  | cons b rest ih =>
    by_cases h : binMatches tol v b
    · simp [findIdxOpt, h]
    · simp [findIdxOpt, h, ih]

theorem findIdxOpt_eq_some (tol v : ℚ) (bins : List TimingBin) (i : ℕ)
    (h : findIdxOpt tol v bins = some i) :
    ∃ b, bins[i]? = some b ∧ binMatches tol v b ∧
      ∀ j < i, ∀ b', bins[j]? = some b' → ¬ binMatches tol v b' := by
  induction bins generalizing i with
  | nil => simp [findIdxOpt] at h
  | cons b rest ih =>
    by_cases hm : binMatches tol v b
    · rw [findIdxOpt, if_pos hm] at h
      obtain rfl : i = 0 := by simpa using h.symm
      exact ⟨b, by simp, hm, fun j hj => by omega⟩
    · rw [findIdxOpt, if_neg hm] at h
      obtain ⟨k, hk, rfl⟩ := Option.map_eq_some'.mp h
      obtain ⟨c, hc1, hc2, hc3⟩ := ih k hk
      refine ⟨c, by simpa using hc1, hc2, ?_⟩
      intro j hj b' hb'
      cases j with
      | zero =>
        have hbb : b = b' := by simpa using hb'
        rw [← hbb]
        exact hm
      | succ j' => exact hc3 j' (by omega) b' (by simpa using hb')

theorem find_timing_eq_neg_one_iff (v : ℚ) (bins : List TimingBin) (tol : ℚ) :
    find_timing_bin_index v bins tol = -1 ↔ ∀ b ∈ bins, ¬ binMatches tol v b := by
  rw [← findIdxOpt_eq_none_iff tol v bins]
  unfold find_timing_bin_index
  cases h : findIdxOpt tol v bins with
  | none => simp
  | some i =>
    constructor
    · intro hi
      exfalso
      have hii : (i : ℤ) = -1 := hi
      omega
    · intro hcontra
      exact absurd hcontra (by simp)

theorem find_timing_eq_coe (v : ℚ) (bins : List TimingBin) (tol : ℚ) (i : ℕ)
    (h : find_timing_bin_index v bins tol = (i : ℤ)) :
    findIdxOpt tol v bins = some i := by
  unfold find_timing_bin_index at h
  cases hf : findIdxOpt tol v bins with
  | none =>
    rw [hf] at h
    have hii : (-1 : ℤ) = (i : ℤ) := h
    omega
  | some j =>
    rw [hf] at h
    have hji : (j : ℤ) = (i : ℤ) := h
    have : j = i := by exact_mod_cast hji
    rw [this]

theorem find_timing_nonneg_iff (v : ℚ) (bins : List TimingBin) (tol : ℚ) :
    0 ≤ find_timing_bin_index v bins tol ↔ ∃ b ∈ bins, binMatches tol v b := by
  unfold find_timing_bin_index
  cases h : findIdxOpt tol v bins with
  | none =>
    have hnone := (findIdxOpt_eq_none_iff tol v bins).mp h
    constructor
    · intro h0
      exfalso
      have : (0 : ℤ) ≤ -1 := h0
      omega
    · rintro ⟨b, hb, hm⟩
      exact absurd hm (hnone b hb)
  | some i =>
    obtain ⟨b, hb1, hb2, _⟩ := findIdxOpt_eq_some tol v bins i h
    constructor
    · intro _
      have hmem : b ∈ bins := by
        have := List.getElem?_eq_some_iff.mp hb1
        obtain ⟨hlt, rfl⟩ := this
        exact List.getElem_mem hlt
      exact ⟨b, hmem, hb2⟩
    · intro _
      exact Int.natCast_nonneg i

theorem rfraw_error_iff (pulses : List ℚ) (rate_Hz : ℚ) (h2 : 2 ≤ pulses.length) :
    generate_rfraw_from_rabbitmq pulses rate_Hz = .error .tooManySymbols
      ↔ 8 < (create_histogram (evenItems pulses ++ oddItems pulses) (1/5)).length := by
  unfold generate_rfraw_from_rabbitmq
  rw [if_neg (not_lt.mpr h2)]
  by_cases h8 : 8 < (create_histogram (evenItems pulses ++ oddItems pulses) (1/5)).length
  · rw [if_pos h8]
    exact iff_of_true rfl h8
  · rw [if_neg h8]
    exact iff_of_false (by simp) h8

theorem rfraw_ok_eq (pulses : List ℚ) (rate_Hz : ℚ) (h2 : 2 ≤ pulses.length)
    (h8 : (create_histogram (evenItems pulses ++ oddItems pulses) (1/5)).length ≤ 8) :
    generate_rfraw_from_rabbitmq pulses rate_Hz =
      .ok ([0xAA, 0xB1, (create_histogram (evenItems pulses ++ oddItems pulses) (1/5)).length]
        ++ (create_histogram (evenItems pulses ++ oddItems pulses) (1/5)).flatMap
            (fun b => timingEntryBytes b.bmean (1000000 / rate_Hz))
        ++ (List.range (evenItems pulses).length).filterMap
            (pairByte (create_histogram (evenItems pulses ++ oddItems pulses) (1/5))
              (evenItems pulses) (oddItems pulses))
        ++ [0x55]) := by
  unfold generate_rfraw_from_rabbitmq
  rw [if_neg (not_lt.mpr h2), if_neg (not_lt.mpr h8)]

end EncoderLemmas

section SortLemmas

theorem sortByMean_perm (bins : List TimingBin) : (sortByMean bins).Perm bins :=
  List.perm_insertionSort byMean bins

theorem sortByCount_perm (bins : List TimingBin) : (sortByCount bins).Perm bins :=
  List.perm_insertionSort byCount bins

theorem sortByMean_sorted (bins : List TimingBin) :
    List.Sorted byMean (sortByMean bins) :=
  List.sorted_insertionSort byMean bins

theorem sortByCount_sorted (bins : List TimingBin) :
    List.Sorted byCount (sortByCount bins) :=
  List.sorted_insertionSort byCount bins

end SortLemmas

section SplitLemmas

open RabbitmqToTriq

theorem evenItems_length : ∀ l : List ℚ, (evenItems l).length = (l.length + 1) / 2
  | [] => by simp [evenItems]
  | [x] => by simp [evenItems]
  | x :: y :: rest => by
    rw [evenItems]
    simp only [List.length_cons, evenItems_length rest]
    omega

theorem oddItems_length (l : List ℚ) : (oddItems l).length = l.length / 2 := by
  unfold oddItems
  rw [evenItems_length, List.length_drop]
  omega

theorem evenItems_subset : ∀ l : List ℚ, ∀ x ∈ evenItems l, x ∈ l
  | [] => by simp [evenItems]
  | [a] => by simp [evenItems]
  | a :: b :: rest => by
    intro x hx
    rw [evenItems] at hx
    rcases List.mem_cons.mp hx with rfl | hx'
    · exact List.mem_cons_self x (b :: rest)
    · exact List.mem_cons_of_mem a
        (List.mem_cons_of_mem b (evenItems_subset rest x hx'))

theorem oddItems_subset (l : List ℚ) : ∀ x ∈ oddItems l, x ∈ l := by
  intro x hx
  exact List.drop_subset 1 l (evenItems_subset (l.drop 1) x hx)

end SplitLemmas

section TrailingPulseLemmas

open RabbitmqToTriq

theorem create_histogram_pos_mean (values : List ℚ) (tol : ℚ)
    (h : ∀ v ∈ values, 0 < v) :
    ∀ b ∈ create_histogram values tol, 0 < b.bmean := by
  intro b hb
  rw [create_histogram_eq_sorted_spec] at hb
  have hb' : b ∈ Spec.histogramSpec tol values :=
    (List.perm_insertionSort byMean _).mem_iff.mp hb
  have h1 := histogramSpec_pos tol values h b hb'
  have h2 := (histogramSpec_binInv tol values b hb').1
  linarith

theorem zero_no_match (tol : ℚ) (htol : tol < 1) (b : TimingBin)
    (hpos : 0 < b.bmean) : ¬ binMatches tol 0 b := by
  rw [binMatches_iff]
  intro hcontra
  rw [zero_sub, abs_neg, abs_of_pos hpos] at hcontra
  nlinarith

theorem pairByte_oob_gap_none (tb : List TimingBin) (pw gw : List ℚ) (k : ℕ)
    (hk : gw.length ≤ k) (hbins : ∀ b ∈ tb, 0 < b.bmean) :
    pairByte tb pw gw k = none := by
  unfold pairByte
  dsimp only
  rw [List.getD_eq_default _ _ hk]
  have hfind : find_timing_bin_index 0 tb (1/5) = -1 :=
    (find_timing_eq_neg_one_iff 0 tb (1/5)).mpr
      (fun b hb => zero_no_match (1/5) (by norm_num) b (hbins b hb))
  rw [hfind]
  rw [if_neg]
  rintro ⟨-, hcontra⟩
  omega

end TrailingPulseLemmas

section Claims

open PulseDataAnalyzer RabbitmqToTriq

/-- C1: for every duration list and tolerance, the histogram builder first
sorts the input ascending, then folds each value into the bin list by
scanning the bins in creation order and merging into the first bin `b` with
`|value − b.mean| ≤ b.mean·t` (updating mean as a running weighted average,
count, min and max), appending a fresh bin `(v,1,v,v)` when none matches;
empty input yields the empty bin list.  Stated as: both builders compute
exactly the spec-side recursion `Spec.histogramSpec` (the triq copy followed
by its final sort by mean), and the empty input gives `[]`. -/
theorem claim_C1_histogram_algorithm :
    (∀ (tol : ℚ) (values : List ℚ),
      createHistogram tol values = Spec.histogramSpec tol values
      ∧ create_histogram values tol = sortByMean (Spec.histogramSpec tol values))
    ∧ (∀ tol : ℚ, createHistogram tol [] = [] ∧ Spec.histogramSpec tol [] = []) :=
  ⟨fun tol values =>
    ⟨createHistogram_eq_histogramSpec tol values,
     create_histogram_eq_sorted_spec values tol⟩,
   fun _ => ⟨rfl, rfl⟩⟩

/-- C2: for tolerance `t > 0` and non-negative durations, the histogram bins
partition the input — the sum of bin counts equals the input length — and
every bin satisfies `min ≤ mean ≤ max`. -/
theorem claim_C2_partition_invariant (t : ℚ) (ht : 0 < t) (values : List ℚ)
    (hnn : ∀ v ∈ values, 0 ≤ v) :
    sumCounts (createHistogram t values) = values.length
    ∧ ∀ b ∈ createHistogram t values, b.bmin ≤ b.bmean ∧ b.bmean ≤ b.bmax := by
  rw [createHistogram_eq_histogramSpec]
  exact ⟨histogramSpec_sumCounts t values, histogramSpec_binInv t values⟩

/-- Witness for C2 at `t = 1/5`, `values = [2, 3]`. -/
theorem claim_C2_witness :
    (0 < (1/5 : ℚ)) ∧ (∀ v ∈ ([2, 3] : List ℚ), 0 ≤ v)
    ∧ (sumCounts (createHistogram (1/5) [2, 3]) = ([2, 3] : List ℚ).length
       ∧ ∀ b ∈ createHistogram (1/5) [2, 3], b.bmin ≤ b.bmean ∧ b.bmean ≤ b.bmax) :=
  ⟨by norm_num, by norm_num,
   claim_C2_partition_invariant (1/5) (by norm_num) [2, 3] (by norm_num)⟩

/-- C3: classification returns the first matching verdict of the ordered
table over `N = |pulse_widths|`, `P = |pulse bins|`, `G = |gap bins|`
(bins built with the tolerance histogram at `TOLERANCE = 0.2`):
`N=1 → SinglePulse`, `P=1∧G=1 → Unmodulated`, `P=1∧G>1 → PpmFixedPulse`,
`P=2∧G=1 → PwmFixedGap`, `P=2∧G=2 → PwmFixedPeriod`, `P=3 → PwmWithSync`,
else `Unknown`. -/
theorem claim_C3_classification_table (pulse_widths gap_widths : List ℚ) :
    guessModulation pulse_widths gap_widths =
      Spec.classifyTable pulse_widths.length
        (createHistogram TOLERANCE pulse_widths).length
        (createHistogram TOLERANCE gap_widths).length := rfl

/-- C10: the two duplicated histogram implementations agree —
`create_histogram(values, 0.2)` from rabbitmq_to_triq.py is exactly
`_create_histogram(values)` from pulse_data_analyzer.py (TOLERANCE 0.2)
sorted ascending by mean; in particular the two outputs are permutations of
each other (same multiset of bins) and the former is sorted by mean. -/
theorem claim_C10_duplicated_histograms_agree (values : List ℚ) :
    create_histogram values (1/5) = sortByMean (createHistogram (1/5) values)
    ∧ (create_histogram values (1/5)).Perm (createHistogram (1/5) values)
    ∧ List.Sorted byMean (create_histogram values (1/5)) := by
  have h1 : create_histogram values (1/5) = sortByMean (createHistogram (1/5) values) := by
    rw [createHistogram_eq_histogramSpec, create_histogram_eq_sorted_spec]
  refine ⟨h1, ?_, ?_⟩
  · rw [h1, createHistogram_eq_histogramSpec]
    exact sortByMean_perm _
  · rw [h1]
    exact sortByMean_sorted _

/-- C4 (code bug evidence): the claimed/spec'd `reset_limit` for
`PpmFixedPulse` is `max(gap_bins).max·to_us + 100`, but line 174 of
pulse_data_analyzer.py reads `gap_bins[-1][2]` — the `bin_min` tuple field —
despite its own `# max + margin` comment.  At `gap_bins` ending in the bin
`(mean 300, count 2, min 280, max 320)` with `to_us = 4`, the code yields
`reset_limit = 280·4 + 100 = 1220`, not the claimed `320·4 + 100 = 1380`. -/
theorem claim_C4_reset_limit_reads_min_field :
    (suggestFlexDecoder .OOK_PPM [⟨50, 1, 50, 50⟩]
        [⟨100, 1, 100, 100⟩, ⟨300, 2, 280, 320⟩] false 4).1
      = some (.ppm 400 1200 1300 1220)
    ∧ (1220 : ℚ) = (⟨300, 2, 280, 320⟩ : TimingBin).bmin * 4 + 100
    ∧ (1220 : ℚ) ≠ (⟨300, 2, 280, 320⟩ : TimingBin).bmax * 4 + 100 := by
  refine ⟨?_, by norm_num, by norm_num⟩
  norm_num [suggestFlexDecoder, sortByMean, byMean, List.insertionSort,
    List.orderedInsert, List.getLast]

/-- C5: when the scheme is PwmWithSync (three pulse bins), the deriver
re-sorts the (mean-sorted) pulse bins ascending by count; the sync width is
the first (least-count) bin's mean times `to_us`, short/long are the smaller
and larger of the remaining two bins' means times `to_us`, and
`tolerance_us = |long − short|·0.4`.  The second component of the returned
state is the count-sorted pulse-bin list, and `b0` indeed has minimal count. -/
theorem claim_C5_pwm_with_sync (pulse_bins gap_bins : List TimingBin) (to_us : ℚ)
    (b0 b1 b2 : TimingBin)
    (h : sortByCount (sortByMean pulse_bins) = [b0, b1, b2]) :
    (∃ reset_limit,
      suggestFlexDecoder .OOK_PWM pulse_bins gap_bins true to_us
        = (some (.pwm (min (b1.bmean * to_us) (b2.bmean * to_us))
                      (max (b1.bmean * to_us) (b2.bmean * to_us))
                      reset_limit
                      (|max (b1.bmean * to_us) (b2.bmean * to_us)
                         - min (b1.bmean * to_us) (b2.bmean * to_us)| * (2/5))
                      (b0.bmean * to_us)),
           [b0, b1, b2], sortByMean gap_bins))
    ∧ b0.bcount ≤ b1.bcount ∧ b0.bcount ≤ b2.bcount := by
  have hlen3 : (sortByMean pulse_bins).length = 3 := by
    have h2 := congrArg List.length h
    rwa [(sortByCount_perm (sortByMean pulse_bins)).length_eq] at h2
  have hne : pulse_bins ≠ [] := by
    intro hcontra
    rw [hcontra] at hlen3
    simp [sortByMean, List.insertionSort] at hlen3
  have hs := sortByCount_sorted (sortByMean pulse_bins)
  rw [h, List.sorted_cons] at hs
  refine ⟨⟨resetLimitPwm (sortByMean gap_bins) to_us, ?_⟩,
    hs.1 b1 (by simp), hs.1 b2 (by simp)⟩
  unfold suggestFlexDecoder
  rw [if_neg hne]
  dsimp only
  rw [if_pos (show true = true ∧ 3 ≤ (sortByMean pulse_bins).length from ⟨rfl, by omega⟩)]
  rw [h]
  dsimp only
  rw [pyMin_eq_min, pyMax_eq_max, pyAbs_eq_abs]

/-- Witness for C5: three pulse bins with counts 5, 1, 3; the count-sorted
order is `(mean 30, count 1), (mean 20, count 3), (mean 10, count 5)`, so
sync = 30, short = 10, long = 20 (with `to_us = 1`). -/
theorem claim_C5_witness :
    (∃ reset_limit,
      suggestFlexDecoder .OOK_PWM
          [⟨10, 5, 10, 10⟩, ⟨30, 1, 30, 30⟩, ⟨20, 3, 20, 20⟩] [] true 1
        = (some (.pwm
            (min ((⟨20, 3, 20, 20⟩ : TimingBin).bmean * 1)
                 ((⟨10, 5, 10, 10⟩ : TimingBin).bmean * 1))
            (max ((⟨20, 3, 20, 20⟩ : TimingBin).bmean * 1)
                 ((⟨10, 5, 10, 10⟩ : TimingBin).bmean * 1))
            reset_limit
            (|max ((⟨20, 3, 20, 20⟩ : TimingBin).bmean * 1)
                  ((⟨10, 5, 10, 10⟩ : TimingBin).bmean * 1)
               - min ((⟨20, 3, 20, 20⟩ : TimingBin).bmean * 1)
                     ((⟨10, 5, 10, 10⟩ : TimingBin).bmean * 1)| * (2/5))
            ((⟨30, 1, 30, 30⟩ : TimingBin).bmean * 1)),
           [⟨30, 1, 30, 30⟩, ⟨20, 3, 20, 20⟩, ⟨10, 5, 10, 10⟩], sortByMean []))
    ∧ (⟨30, 1, 30, 30⟩ : TimingBin).bcount ≤ (⟨20, 3, 20, 20⟩ : TimingBin).bcount
    ∧ (⟨30, 1, 30, 30⟩ : TimingBin).bcount ≤ (⟨10, 5, 10, 10⟩ : TimingBin).bcount :=
  claim_C5_pwm_with_sync
    [⟨10, 5, 10, 10⟩, ⟨30, 1, 30, 30⟩, ⟨20, 3, 20, 20⟩] [] 1
    ⟨30, 1, 30, 30⟩ ⟨20, 3, 20, 20⟩ ⟨10, 5, 10, 10⟩
    (by norm_num [sortByCount, sortByMean, byMean, byCount,
      List.insertionSort, List.orderedInsert])

/-- C9 counterexample: the claim says the bin lists passed to parameter
derivation are unchanged in contents **and order** after the call, but the
Python `list.sort` calls mutate them in place: passing pulse bins with means
`[2, 1]` leaves them reordered to `[1, 2]`. -/
theorem claim_C9_counterexample :
    (suggestFlexDecoder .OOK_PWM [⟨2, 1, 2, 2⟩, ⟨1, 1, 1, 1⟩] [⟨5, 1, 5, 5⟩]
        false 1).2.1
      ≠ [⟨2, 1, 2, 2⟩, ⟨1, 1, 1, 1⟩] := by
  norm_num [suggestFlexDecoder, sortByMean, byMean, List.insertionSort,
    List.orderedInsert]
  rw [if_neg
    (by simp : ¬ (([⟨2, 1, 2, 2⟩, ⟨1, 1, 1, 1⟩] : List TimingBin) = []))]
  norm_num

/-- C9 amended: parameter derivation sorts the caller's bin lists in place,
so their order may change; but it only re-orders them — after the call each
list is a permutation of its input (same bins, same multiplicities) — and
the derived parameters are a separate value. -/
theorem claim_C9_amended (modulation : Modulation)
    (pulse_bins gap_bins : List TimingBin) (has_sync : Bool) (to_us : ℚ) :
    ((suggestFlexDecoder modulation pulse_bins gap_bins has_sync to_us).2.1).Perm
      pulse_bins
    ∧ ((suggestFlexDecoder modulation pulse_bins gap_bins has_sync to_us).2.2).Perm
      gap_bins := by
  unfold suggestFlexDecoder
  by_cases hemp : pulse_bins = []
  · rw [if_pos hemp]
    exact ⟨List.Perm.refl _, List.Perm.refl _⟩
  · rw [if_neg hemp]
    dsimp only
    have hpm : (sortByMean pulse_bins).Perm pulse_bins := sortByMean_perm pulse_bins
    have hgm : (sortByMean gap_bins).Perm gap_bins := sortByMean_perm gap_bins
    have hpc : (sortByCount (sortByMean pulse_bins)).Perm pulse_bins :=
      (sortByCount_perm _).trans hpm
    cases modulation with
    | OOK_PPM =>
      dsimp only
      cases hgb : sortByMean gap_bins with
      | nil =>
        rw [hgb] at hgm
        exact ⟨hpm, hgm⟩
      | cons g0 grest =>
        rw [hgb] at hgm
        exact ⟨hpm, hgm⟩
    | OOK_PWM =>
      dsimp only
      by_cases hsync : (has_sync = true) ∧ 3 ≤ (sortByMean pulse_bins).length
      · rw [if_pos hsync]
        cases hsc : sortByCount (sortByMean pulse_bins) with
        | nil =>
          rw [hsc] at hpc
          exact ⟨hpc, hgm⟩
        | cons c0 crest =>
          rw [hsc] at hpc
          cases crest with
          | nil => exact ⟨hpc, hgm⟩
          | cons c1 crest2 =>
            cases crest2 with
            | nil => exact ⟨hpc, hgm⟩
            | cons c2 crest3 => exact ⟨hpc, hgm⟩
      · rw [if_neg hsync]
        cases hpb : sortByMean pulse_bins with
        | nil =>
          rw [hpb] at hpm
          exact ⟨hpm, hgm⟩
        | cons p0 prest =>
          rw [hpb] at hpm
          exact ⟨hpm, hgm⟩

/-- C6 counterexample: the claim promises "one byte … per pulse/gap pair",
i.e. a frame of length `3 + 2·N + pairs + 1`.  For the pulse train
`[100, 120, 132, 140, 147, 150]` all six durations merge into one bin of
mean `131.5`, but the lookup of `100` against that bin fails
(`31.5 > 26.3`), so the first pair is silently skipped: the frame has 8
bytes, not the claimed `3 + 2·1 + 3 + 1 = 9`. -/
theorem claim_C6_counterexample :
    generate_rfraw_from_rabbitmq [100, 120, 132, 140, 147, 150] 250000
      = .ok [0xAA, 0xB1, 1, 2, 14, 128, 128, 0x55]
    ∧ ([0xAA, 0xB1, 1, 2, 14, 128, 128, 0x55] : List ℕ).length
        ≠ 3 + 2 * 1 + (evenItems [100, 120, 132, 140, 147, 150]).length + 1 := by
  constructor
  · norm_num [generate_rfraw_from_rabbitmq, create_histogram, insertValue, sortByMean,
      byMean, sortQ, binMatches, mergeBin, newBin, pyAbs, pyMin, pyMax, pyMinI, pyInt,
      evenItems, oddItems, timingEntryBytes, pairByte, find_timing_bin_index, findIdxOpt,
      List.insertionSort, List.orderedInsert, List.foldl, List.range, List.range.loop,
      List.filterMap, List.flatMap]
    decide
  · norm_num [evenItems]

/-- C6 amended: for every pulse train of length ≥ 2, encoding fails with
`TooManySymbols` exactly when the combined pulse-and-gap histogram
(tolerance 0.2, sorted ascending by mean) has more than 8 bins; otherwise it
emits `0xAA, 0xB1, N`, the `N` clamped 16-bit big-endian timing entries, one
byte `0x80 ||| pulse_idx <<< 4 ||| gap_idx` per pulse/gap pair **whose pulse
and gap both match a timing bin** (pairs with an unmatched duration are
silently omitted), and a trailing `0x55`. -/
theorem claim_C6_amended (pulses : List ℚ) (rate_Hz : ℚ) (h2 : 2 ≤ pulses.length) :
    (generate_rfraw_from_rabbitmq pulses rate_Hz = .error .tooManySymbols
      ↔ 8 < (create_histogram (evenItems pulses ++ oddItems pulses) (1/5)).length)
    ∧ ((create_histogram (evenItems pulses ++ oddItems pulses) (1/5)).length ≤ 8 →
        generate_rfraw_from_rabbitmq pulses rate_Hz =
          .ok ([0xAA, 0xB1,
                (create_histogram (evenItems pulses ++ oddItems pulses) (1/5)).length]
            ++ (create_histogram (evenItems pulses ++ oddItems pulses) (1/5)).flatMap
                (fun b => timingEntryBytes b.bmean (1000000 / rate_Hz))
            ++ (List.range (evenItems pulses).length).filterMap
                (pairByte (create_histogram (evenItems pulses ++ oddItems pulses) (1/5))
                  (evenItems pulses) (oddItems pulses))
            ++ [0x55])) :=
  ⟨rfraw_error_iff pulses rate_Hz h2, fun h8 => rfraw_ok_eq pulses rate_Hz h2 h8⟩

/-- Witness for C6 at `pulses = [100, 200]`, `rate = 250000`. -/
theorem claim_C6_witness :
    (2 ≤ ([100, 200] : List ℚ).length)
    ∧ ((generate_rfraw_from_rabbitmq [100, 200] 250000 = .error .tooManySymbols
        ↔ 8 < (create_histogram (evenItems [100, 200] ++ oddItems [100, 200]) (1/5)).length)
      ∧ ((create_histogram (evenItems [100, 200] ++ oddItems [100, 200]) (1/5)).length ≤ 8 →
          generate_rfraw_from_rabbitmq [100, 200] 250000 =
            .ok ([0xAA, 0xB1,
                  (create_histogram (evenItems [100, 200] ++ oddItems [100, 200]) (1/5)).length]
              ++ (create_histogram (evenItems [100, 200] ++ oddItems [100, 200]) (1/5)).flatMap
                  (fun b => timingEntryBytes b.bmean (1000000 / 250000))
              ++ (List.range (evenItems [100, 200]).length).filterMap
                  (pairByte (create_histogram (evenItems [100, 200] ++ oddItems [100, 200]) (1/5))
                    (evenItems [100, 200]) (oddItems [100, 200]))
              ++ [0x55]))) :=
  ⟨by norm_num, claim_C6_amended [100, 200] 250000 (by norm_num)⟩

/-- C7 counterexample: the claim says encoding fails with `UnmatchedTiming`
whenever some duration matches no timing bin.  For
`[100, 120, 132, 140, 147, 153]` all six durations merge into a single bin
of mean `132`, the lookup of the duration `100` returns `-1` (no match), yet
encoding succeeds and returns a frame — the unmatched pair is just skipped;
the code has no failure path for unmatched timings. -/
theorem claim_C7_counterexample :
    find_timing_bin_index 100
      (create_histogram
        (evenItems [100, 120, 132, 140, 147, 153]
          ++ oddItems [100, 120, 132, 140, 147, 153]) (1/5)) (1/5) = -1
    ∧ generate_rfraw_from_rabbitmq [100, 120, 132, 140, 147, 153] 250000
        = .ok [0xAA, 0xB1, 1, 2, 16, 128, 128, 0x55] := by
  constructor
  · norm_num [find_timing_bin_index, findIdxOpt, create_histogram, insertValue,
      sortByMean, byMean, sortQ, binMatches, mergeBin, newBin, pyAbs, pyMin, pyMax,
      evenItems, oddItems, List.insertionSort, List.orderedInsert, List.foldl]
  · norm_num [generate_rfraw_from_rabbitmq, create_histogram, insertValue, sortByMean,
      byMean, sortQ, binMatches, mergeBin, newBin, pyAbs, pyMin, pyMax, pyMinI, pyInt,
      evenItems, oddItems, timingEntryBytes, pairByte, find_timing_bin_index, findIdxOpt,
      List.insertionSort, List.orderedInsert, List.foldl, List.range, List.range.loop,
      List.filterMap, List.flatMap]
    decide

/-- C7 amended: each duration's timing-table index is found by a first-match
linear scan over the timing bins (`-1` when no bin matches), and encoding
never fails because of an unmatched duration: whenever the train has length
≥ 2 and at most 8 timing bins, encoding returns a frame — pairs containing
an unmatched duration are silently dropped rather than reported. -/
theorem claim_C7_amended :
    (∀ (v tol : ℚ) (bins : List TimingBin),
      (find_timing_bin_index v bins tol = -1 ↔ ∀ b ∈ bins, ¬ binMatches tol v b)
      ∧ ∀ i : ℕ, find_timing_bin_index v bins tol = (i : ℤ) →
          ∃ b, bins[i]? = some b ∧ binMatches tol v b
            ∧ ∀ j < i, ∀ b', bins[j]? = some b' → ¬ binMatches tol v b')
    ∧ (∀ (pulses : List ℚ) (rate_Hz : ℚ), 2 ≤ pulses.length →
        (create_histogram (evenItems pulses ++ oddItems pulses) (1/5)).length ≤ 8 →
        ∃ l, generate_rfraw_from_rabbitmq pulses rate_Hz = .ok l) := by
  constructor
  · intro v tol bins
    refine ⟨find_timing_eq_neg_one_iff v bins tol, ?_⟩
    intro i hi
    exact findIdxOpt_eq_some tol v bins i (find_timing_eq_coe v bins tol i hi)
  · intro pulses rate_Hz h2 h8
    exact ⟨_, rfraw_ok_eq pulses rate_Hz h2 h8⟩

/-- Witness for C7: encoding `[100, 200]` at 250 kHz succeeds. -/
theorem claim_C7_witness :
    ∃ l, generate_rfraw_from_rabbitmq [100, 200] 250000 = .ok l :=
  claim_C7_amended.2 [100, 200] 250000 (by norm_num)
    (by norm_num [create_histogram, insertValue, sortByMean, byMean, sortQ,
      binMatches, mergeBin, newBin, pyAbs, pyMin, pyMax, evenItems, oddItems,
      List.insertionSort, List.orderedInsert, List.foldl])

/-- C8 counterexample: the claim says the trailing unpaired pulse of an
odd-length train is still encoded (paired with a zero gap) and not silently
dropped.  For `[100, 100, 100]` (pulses `100, 100`, gap `100`), the single
timing bin has mean `100`; the trailing pulse is paired with gap `0`, whose
lookup fails (`|0 − 100| > 20`), so its data byte is dropped: the frame
holds a single data byte `0x80` for the first pair only, and `pairByte` at
the trailing pair index `1` is `none`. -/
theorem claim_C8_counterexample :
    generate_rfraw_from_rabbitmq [100, 100, 100] 250000
      = .ok [0xAA, 0xB1, 1, 1, 144, 128, 0x55]
    ∧ pairByte
        (create_histogram (evenItems [100, 100, 100] ++ oddItems [100, 100, 100]) (1/5))
        (evenItems [100, 100, 100]) (oddItems [100, 100, 100]) 1 = none
    ∧ (evenItems [100, 100, 100]).length = 2 := by
  refine ⟨?_, ?_, by norm_num [evenItems]⟩
  · norm_num [generate_rfraw_from_rabbitmq, create_histogram, insertValue, sortByMean,
      byMean, sortQ, binMatches, mergeBin, newBin, pyAbs, pyMin, pyMax, pyMinI, pyInt,
      evenItems, oddItems, timingEntryBytes, pairByte, find_timing_bin_index, findIdxOpt,
      List.insertionSort, List.orderedInsert, List.foldl, List.range, List.range.loop,
      List.filterMap, List.flatMap]
    decide
  · norm_num [create_histogram, insertValue, sortByMean, byMean, sortQ, binMatches,
      mergeBin, newBin, pyAbs, pyMin, pyMax, evenItems, oddItems, pairByte,
      find_timing_bin_index, findIdxOpt, List.insertionSort, List.orderedInsert,
      List.foldl]

/-- C8 amended: for an odd-length train (length ≥ 3) of positive durations
whose timing table has at most 8 bins, the trailing unpaired pulse is paired
against an explicit zero-duration gap for index lookup, but that lookup
always fails (a zero duration is within 20% tolerance only of a zero-mean
bin, and all bins of a positive-duration train have positive mean), so the
final pulse contributes **no** data byte: the emitted frame's data section
is exactly that of the full pulse/gap pairs. -/
theorem claim_C8_amended (pulses : List ℚ) (rate_Hz : ℚ)
    (hodd : pulses.length % 2 = 1) (h3 : 3 ≤ pulses.length)
    (hpos : ∀ v ∈ pulses, 0 < v)
    (h8 : (create_histogram (evenItems pulses ++ oddItems pulses) (1/5)).length ≤ 8) :
    pairByte (create_histogram (evenItems pulses ++ oddItems pulses) (1/5))
        (evenItems pulses) (oddItems pulses) ((evenItems pulses).length - 1) = none
    ∧ generate_rfraw_from_rabbitmq pulses rate_Hz =
        .ok ([0xAA, 0xB1,
              (create_histogram (evenItems pulses ++ oddItems pulses) (1/5)).length]
          ++ (create_histogram (evenItems pulses ++ oddItems pulses) (1/5)).flatMap
              (fun b => timingEntryBytes b.bmean (1000000 / rate_Hz))
          ++ (List.range ((evenItems pulses).length - 1)).filterMap
              (pairByte (create_histogram (evenItems pulses ++ oddItems pulses) (1/5))
                (evenItems pulses) (oddItems pulses))
          ++ [0x55]) := by
  have h2 : 2 ≤ pulses.length := by omega
  have hoddlen : (oddItems pulses).length = (evenItems pulses).length - 1 := by
    rw [evenItems_length, oddItems_length]
    omega
  have hevlen : 2 ≤ (evenItems pulses).length := by
    rw [evenItems_length]
    omega
  have hpos' : ∀ v ∈ evenItems pulses ++ oddItems pulses, 0 < v := by
    intro v hv
    rcases List.mem_append.mp hv with h | h
    · exact hpos v (evenItems_subset pulses v h)
    · exact hpos v (oddItems_subset pulses v h)
  have hbins := create_histogram_pos_mean (evenItems pulses ++ oddItems pulses) (1/5) hpos'
  have hlast : pairByte
      (create_histogram (evenItems pulses ++ oddItems pulses) (1/5))
      (evenItems pulses) (oddItems pulses) ((evenItems pulses).length - 1) = none :=
    pairByte_oob_gap_none _ _ _ _ (by omega) hbins
  refine ⟨hlast, ?_⟩
  rw [rfraw_ok_eq pulses rate_Hz h2 h8]
  set n := (evenItems pulses).length - 1 with hn
  have hk : (evenItems pulses).length = n + 1 := by omega
  rw [hk, List.range_succ, List.filterMap_append,
    List.filterMap_cons_none hlast, List.filterMap_nil, List.append_nil]

/-- Witness for C8 at `pulses = [100, 100, 100]`, `rate = 250000`. -/
theorem claim_C8_witness :
    pairByte (create_histogram (evenItems [100, 100, 100] ++ oddItems [100, 100, 100]) (1/5))
        (evenItems [100, 100, 100]) (oddItems [100, 100, 100])
        ((evenItems [100, 100, 100]).length - 1) = none
    ∧ generate_rfraw_from_rabbitmq [100, 100, 100] 250000 =
        .ok ([0xAA, 0xB1,
              (create_histogram (evenItems [100, 100, 100] ++ oddItems [100, 100, 100]) (1/5)).length]
          ++ (create_histogram (evenItems [100, 100, 100] ++ oddItems [100, 100, 100]) (1/5)).flatMap
              (fun b => timingEntryBytes b.bmean (1000000 / 250000))
          ++ (List.range ((evenItems [100, 100, 100]).length - 1)).filterMap
              (pairByte (create_histogram (evenItems [100, 100, 100] ++ oddItems [100, 100, 100]) (1/5))
                (evenItems [100, 100, 100]) (oddItems [100, 100, 100]))
          ++ [0x55]) :=
  claim_C8_amended [100, 100, 100] 250000 (by norm_num) (by norm_num)
    (by norm_num)
    (by norm_num [create_histogram, insertValue, sortByMean, byMean, sortQ,
      binMatches, mergeBin, newBin, pyAbs, pyMin, pyMax, evenItems, oddItems,
      List.insertionSort, List.orderedInsert, List.foldl])

end Claims

end RTL433
